import Mathlib

/-!
# Verification of the TWSE IPO auction tracker (`src/app.py`)

Shallow embedding of the data-handling core of `app.py`:

* `rocToDate` embeds the nested helper `roc_to_date` (app.py lines 72-81);
* `parseRangeEnd` embeds the inline auction-period range parsing
  (app.py lines 87-95), called `parse_range_end` by the specification;
* `buildRow` / `processRows` embed the per-row loop of
  `get_twse_auction_data` (app.py lines 48-97);
* `getTwseAuctionData` embeds the response handling of
  `get_twse_auction_data` (app.py lines 23-102);
* `classifyData` embeds `classify_data` (app.py lines 105-125);
* `appOutcome` embeds the main page flow (app.py lines 141-181).

Strings are modelled as `List Char` (Python `str.split` has no convenient
counterpart on Lean `String`); a Python string literal `s` is written
`"s".data`.  JSON scalar cell values are modelled by the inductive `Value`.
Python exceptions escaping an expression are modelled by `Option`/`Except`
results, as noted at each definition.
-/

/-- A JSON scalar value as it can appear in a payload cell.  `str` is a
Python string; `num`, `boolean` and `null` stand for the non-string JSON
scalars (Python `int`/`float` are not distinguished — no claim needs it). -/
inductive Value where
  | str (s : List Char)
  | num (n : Int)
  | boolean (b : Bool)
  | null
deriving DecidableEq, Repr

/-- A Python `datetime.date`.  Constructed only through `mkDate?`, which
performs the constructor's validation; comparison is lexicographic on
(year, month, day), as in CPython. -/
structure PyDate where
  year : Nat
  month : Nat
  day : Nat
deriving DecidableEq, Repr

/-- Gregorian leap-year test, as used by `datetime.date` validation. -/
def isLeap (y : Int) : Bool :=
  y % 4 = 0 && (y % 100 ≠ 0 || y % 400 = 0)

/-- Number of days in a month, as used by `datetime.date` validation. -/
def daysInMonth (y m : Int) : Int :=
  if m = 2 then (if isLeap y then 29 else 28)
  else if m = 4 || m = 6 || m = 9 || m = 11 then 30
  else 31

/-- `datetime.date(y, m, d)`: returns the date when the arguments pass the
constructor's validation (`MINYEAR = 1 ≤ y ≤ 9999 = MAXYEAR`, `1 ≤ m ≤ 12`,
`1 ≤ d ≤ daysInMonth`), and `none` when the constructor would raise
`ValueError`. -/
def mkDate? (y m d : Int) : Option PyDate :=
  if 1 ≤ y ∧ y ≤ 9999 ∧ 1 ≤ m ∧ m ≤ 12 ∧ 1 ≤ d ∧ d ≤ daysInMonth y m then
    some ⟨y.toNat, m.toNat, d.toNat⟩
  else
    none

/-- CPython `date.__lt__`: strict lexicographic order on (year, month, day). -/
def dateLt (a b : PyDate) : Bool :=
  a.year < b.year ||
    (a.year = b.year && (a.month < b.month ||
      (a.month = b.month && a.day < b.day)))

/-- CPython `date.__le__`: lexicographic order on (year, month, day). -/
def dateLe (a b : PyDate) : Bool :=
  dateLt a b || a = b

/-- Python `str.split(sep)` for a one-character separator: splits on every
occurrence, keeping empty segments (so the result is never empty). -/
def splitChar (sep : Char) : List Char → List (List Char)
  | [] => [[]]
  | c :: cs =>
    if c = sep then [] :: splitChar sep cs
    else
      match splitChar sep cs with
      | [] => [[c]]
      | seg :: rest => (c :: seg) :: rest

/-- The ASCII whitespace characters stripped by Python `int(str)`
(the CPython parser also strips Unicode whitespace; the payloads at issue
are ASCII-delimited, so the model is restricted to ASCII whitespace). -/
def isPySpace (c : Char) : Bool :=
  c = ' ' || c = '\t' || c = '\n' || c = '\r' ||
    c = Char.ofNat 11 || c = Char.ofNat 12

/-- Strip leading and trailing whitespace, as `int(str)` does before
parsing. -/
def stripWs (l : List Char) : List Char :=
  ((l.dropWhile isPySpace).reverse.dropWhile isPySpace).reverse

/-- Digit-sequence parser used by `pythonInt?`: CPython digits may contain
single underscores between digits (`"1_0"` parses, `"_1"`, `"1_"`, `"1__0"`
do not).  `acc` is the value of the digits already consumed. -/
def parseDigitsGo (acc : Nat) : List Char → Option Nat
  | [] => some acc
  | c :: rest =>
    if c.isDigit then parseDigitsGo (acc * 10 + (c.toNat - 48)) rest
    else if c = '_' then
      match rest with
      | d :: rest' =>
        if d.isDigit then parseDigitsGo ((acc * 10 + (d.toNat - 48))) rest'
        else none
      | [] => none
    else none

/-- A nonempty digit sequence (with optional internal underscores),
starting with a digit. -/
def parseDigits : List Char → Option Nat
  | [] => none
  | c :: rest => if c.isDigit then parseDigitsGo (c.toNat - 48) rest else none

/-- CPython `int(str)`: strip surrounding whitespace, then an optional
sign, then a nonempty digit sequence; `none` models the `ValueError`
raised on any other input (restricted to ASCII digits and whitespace, see
`isPySpace`). -/
def pythonInt? (l : List Char) : Option Int :=
  match stripWs l with
  | '+' :: rest => (parseDigits rest).map Int.ofNat
  | '-' :: rest => (parseDigits rest).map (fun n => -(n : Int))
  | rest => (parseDigits rest).map Int.ofNat

/-- `roc_to_date` (app.py lines 72-81) on a string argument: empty string
is falsy and yields `None`; otherwise split on `'/'`, require exactly three
segments, parse each as an integer, add 1911 to the year and validate via
`datetime.date`; every failure path (caught by the bare `except`) yields
`None`. -/
def rocToDate (s : List Char) : Option PyDate :=
  if s = [] then none
  else
    match splitChar '/' s with
    | [a, b, c] =>
      match pythonInt? a with
      | none => none
      | some ya =>
        match pythonInt? b, pythonInt? c with
        | some mb, some dc => mkDate? (ya + 1911) mb dc
        | _, _ => none
    | _ => none

/-- `roc_to_date` on an arbitrary cell value: a falsy value returns `None`
directly; a truthy non-string raises `AttributeError` at `.split`, caught
by the bare `except`, also yielding `None`. -/
def rocToDateVal (v : Value) : Option PyDate :=
  match v with
  | Value.str s => rocToDate s
  | _ => none

/-- The inline auction-period parsing of app.py lines 87-95 (the
specification's `parse_range_end`): if the text contains a tilde, split on
every tilde and parse the second segment with `roc_to_date`; otherwise
`None`.  The final `none` arm is unreachable: a string containing the
separator splits into at least two segments. -/
def parseRangeEnd (s : List Char) : Option PyDate :=
  if '~' ∈ s then
    match splitChar '~' s with
    | _ :: b :: _ => rocToDate b
    | _ => none
  else none

/-- Range parsing on an arbitrary cell value: `'~' in v` raises
`TypeError` for the non-string scalars, caught by the surrounding
`try/except`, yielding `None`. -/
def parseRangeEndVal (v : Value) : Option PyDate :=
  match v with
  | Value.str s => parseRangeEnd s
  | _ => none

/-- One normalized row of `get_twse_auction_data` (the dict built at
app.py lines 54-95).  Field names romanize the Chinese keys:
`auctionPeriod` 競拍期間, `securityCode` 證券代號, `securityName` 證券名稱,
`industry` 所屬產業, `underwriter` 承銷商, `underwritingLots` 承銷張數,
`auctionLots` 競拍張數, `floorPrice` 底價, `underwritingPrice` 承銷價,
`minWinningPrice` 最低得標價, `maxWinningPrice` 最高得標價,
`weightedAvgPrice` 得標加權平均價, `listingDateRaw` 掛牌日期,
`openDateRaw` 開標日期, and the three derived date objects
`dateOpenObj`, `dateListObj`, `dateAuctionEndObj`. -/
structure Record where
  auctionPeriod : Value
  securityCode : Value
  securityName : Value
  industry : Value
  underwriter : Value
  underwritingLots : Value
  auctionLots : Value
  floorPrice : Value
  underwritingPrice : Value
  minWinningPrice : Value
  maxWinningPrice : Value
  weightedAvgPrice : Value
  listingDateRaw : Value
  openDateRaw : Value
  dateOpenObj : Option PyDate
  dateListObj : Option PyDate
  dateAuctionEndObj : Option PyDate
deriving DecidableEq, Repr

/-- The body of the row loop (app.py lines 54-95) after the length guard:
each `item[i]` is a plain index whose failure (`none`) models an
`IndexError`; `item[18]` is guarded by `len(item) > 18` in the source and
defaults to the empty string. -/
def buildRow (item : List Value) : Option Record := do
  let v0 ← item[0]?
  let v1 ← item[1]?
  let v2 ← item[2]?
  let v3 ← item[3]?
  let v4 ← item[4]?
  let v5 ← item[5]?
  let v6 ← item[6]?
  let v9 ← item[9]?
  let v10 ← item[10]?
  let v12 ← item[12]?
  let v13 ← item[13]?
  let v14 ← item[14]?
  let v17 ← item[17]?
  let v18 ← if 18 < item.length then item[18]? else some (Value.str [])
  pure
    { auctionPeriod := v0
      securityCode := v1
      securityName := v2
      industry := v3
      underwriter := v4
      underwritingLots := v5
      auctionLots := v6
      floorPrice := v9
      underwritingPrice := v10
      minWinningPrice := v12
      maxWinningPrice := v13
      weightedAvgPrice := v14
      listingDateRaw := v17
      openDateRaw := v18
      dateOpenObj := rocToDateVal v18
      dateListObj := rocToDateVal v17
      dateAuctionEndObj := parseRangeEndVal v0 }

/-- The row loop of app.py lines 48-97: rows shorter than 18 are skipped by
`continue`; a `none` from `buildRow` (an `IndexError` escaping the loop)
aborts the whole loop, as the exception would propagate to the outer
`except`. -/
def processRows : List (List Value) → Option (List Record)
  | [] => some []
  | item :: rest =>
    if item.length < 18 then processRows rest
    else
      match buildRow item with
      | none => none
      | some r => (processRows rest).map (fun l => r :: l)

/-- The exception-free description of the row loop: keep one record per
row of sufficient length, in order. -/
def pureProcess (rows : List (List Value)) : List Record :=
  rows.filterMap (fun item => if item.length < 18 then none else buildRow item)

/-- The parsed JSON body: `data?` is `some` exactly when the object has a
`data` key (an array of row arrays); `fields?` is the optional `fields`
array of column names (present in the payload shape, never read by the
source). -/
structure Payload where
  data? : Option (List (List Value))
  fields? : Option (List (List Char))
deriving DecidableEq, Repr

/-- The HTTP response as seen after `requests.get` returns: `status` is
`res.status_code`, `rawBody` is `res.text`, and `json` is the result of
`res.json()` — `.error e` carries `str(e)` of the decode exception. -/
structure HttpResponse where
  status : Nat
  rawBody : List Char
  json : Except (List Char) Payload
deriving Repr

/-- The fixed error string returned when the JSON lacks a `data` key
(app.py line 27): 無法取得資料，可能來源格式變更. -/
def formatChangedMsg : List Char :=
  "無法取得資料，可能來源格式變更".data

/-- `str(e)` of a CPython `IndexError` raised by a bare list index. -/
def indexErrorMsg : List Char :=
  "list index out of range".data

/-- `get_twse_auction_data` (app.py lines 23-102) from the point the
response is in hand: any exception from `res.json()` is caught and
stringified; a body without `data` yields the fixed message; otherwise the
row loop runs and its records are returned with no error.  The HTTP status
code is part of the response but is never consulted by the source. -/
def getTwseAuctionData (res : HttpResponse) :
    Option (List Record) × Option (List Char) :=
  match res.json with
  | Except.error e => (none, some e)
  | Except.ok p =>
    match p.data? with
    | none => (none, some formatChangedMsg)
    | some rows =>
      match processRows rows with
      | none => (none, some indexErrorMsg)
      | some recs => (some recs, none)

/-- Elementwise `series >= today` on an object column holding dates and
`None`: pandas `scalar_compare` returns `False` on a null entry for every
ordering comparison (the policy §4.3 of the specification relies on). -/
def serGe (x : Option PyDate) (t : PyDate) : Bool :=
  match x with
  | none => false
  | some d => dateLe t d

/-- Elementwise `series > today` with pandas null semantics. -/
def serGt (x : Option PyDate) (t : PyDate) : Bool :=
  match x with
  | none => false
  | some d => dateLt t d

/-- Elementwise `series <= today` with pandas null semantics. -/
def serLe (x : Option PyDate) (t : PyDate) : Bool :=
  match x with
  | none => false
  | some d => dateLe d t

/-- `mask_ongoing` (app.py line 110):
`(df['date_auction_end_obj'] >= today) | (df['date_open_obj'] > today)`. -/
def ongoingMask (today : PyDate) (r : Record) : Bool :=
  serGe r.dateAuctionEndObj today || serGt r.dateOpenObj today

/-- `mask_listed` (app.py line 113): `df['date_list_obj'] <= today`. -/
def listedMask (today : PyDate) (r : Record) : Bool :=
  serLe r.dateListObj today

/-- `mask_auctioned` (app.py line 116):
`(df['date_open_obj'] <= today) & (df['date_list_obj'] > today)`. -/
def auctionedMask (today : PyDate) (r : Record) : Bool :=
  serLe r.dateOpenObj today && serGt r.dateListObj today

/-- `df[mask_ongoing]`: the rows selected into the ongoing bucket. -/
def ongoingRows (today : PyDate) (rows : List Record) : List Record :=
  rows.filter (ongoingMask today)

/-- `df[mask_auctioned]`: the rows selected into the awaiting-listing
bucket. -/
def auctionedRows (today : PyDate) (rows : List Record) : List Record :=
  rows.filter (auctionedMask today)

/-- `df[mask_listed]`: the rows selected into the listed bucket. -/
def listedRows (today : PyDate) (rows : List Record) : List Record :=
  rows.filter (listedMask today)

/-- `.drop(columns=['date_open_obj','date_list_obj','date_auction_end_obj'])`
applied to one row: the retained column values in source order. -/
def stripDates (r : Record) : List Value :=
  [r.auctionPeriod, r.securityCode, r.securityName, r.industry,
   r.underwriter, r.underwritingLots, r.auctionLots, r.floorPrice,
   r.underwritingPrice, r.minWinningPrice, r.maxWinningPrice,
   r.weightedAvgPrice, r.listingDateRaw, r.openDateRaw]

/-- `classify_data` (app.py lines 105-125) with `date.today()` made a
parameter.  A DataFrame built from an empty list has no columns, so
`df['date_auction_end_obj']` raises `KeyError` — modelled by `none`; on a
nonempty frame the three masks select the buckets and the helper date
columns are dropped. -/
def classifyData (today : PyDate) (rows : List Record) :
    Option (List (List Value) × List (List Value) × List (List Value)) :=
  match rows with
  | [] => none
  | _ =>
    some ((ongoingRows today rows).map stripDates,
          (auctionedRows today rows).map stripDates,
          (listedRows today rows).map stripDates)

/-- What the main page (app.py lines 141-181) surfaces: the error banner,
an uncaught Python exception failing the render, or the rendered
three-bucket page. -/
inductive Outcome where
  | errorBanner (msg : List Char)
  | pyError
  | page (buckets : List (List Value) × List (List Value) × List (List Value))
deriving DecidableEq, Repr

/-- The main flow (app.py lines 141-181): show the banner when the fetch
reported an error, otherwise classify; a `KeyError` escaping
`classify_data` (or a `None` frame reaching it) fails the render. -/
def appOutcome (today : PyDate) (res : HttpResponse) : Outcome :=
  match getTwseAuctionData res with
  | (_, some e) => Outcome.errorBanner e
  | (df?, none) =>
    match df? with
    | none => Outcome.pyError
    | some df =>
      match classifyData today df with
      | none => Outcome.pyError
      | some t => Outcome.page t

/-! ## Specification-side predicates and shared concrete inputs -/

/-- The specification's strict date order `a < b` (calendar order,
lexicographic on year, month, day), stated as a proposition. -/
def dateLTP (a b : PyDate) : Prop :=
  a.year < b.year ∨
    (a.year = b.year ∧ (a.month < b.month ∨
      (a.month = b.month ∧ a.day < b.day)))

/-- The specification's date order `a ≤ b`, stated as a proposition. -/
def dateLEP (a b : PyDate) : Prop :=
  dateLTP a b ∨ a = b

/-- §4.3 Ongoing: `A` present and `A ≥ today`, or `O` present and
`O > today`. -/
def ongoingSpec (today : PyDate) (r : Record) : Prop :=
  (∃ a, r.dateAuctionEndObj = some a ∧ dateLEP today a) ∨
    (∃ o, r.dateOpenObj = some o ∧ dateLTP today o)

/-- §4.3 Awaiting-listing: `O` present and `O ≤ today`, and `L` present
and `L > today`. -/
def awaitingSpec (today : PyDate) (r : Record) : Prop :=
  (∃ o, r.dateOpenObj = some o ∧ dateLEP o today) ∧
    (∃ l, r.dateListObj = some l ∧ dateLTP today l)

/-- §4.3 Listed: `L` present and `L ≤ today`. -/
def listedSpec (today : PyDate) (r : Record) : Prop :=
  ∃ l, r.dateListObj = some l ∧ dateLEP l today

/-- A 19-cell payload row as the endpoint serves them (auction period,
code, name, …, listing date at 17, open date at 18). -/
def sampleRow : List Value :=
  [Value.str ("113/11/01~113/11/03".data), Value.str ("A".data),
   Value.str ("B".data), Value.str [], Value.str [], Value.str [],
   Value.str [], Value.str [], Value.str [], Value.str [], Value.str [],
   Value.str [], Value.str [], Value.str [], Value.str [], Value.str [],
   Value.str [], Value.str ("113/11/20".data), Value.str ("113/11/04".data)]

/-- The record `buildRow` produces from `sampleRow`. -/
def sampleRec : Record :=
  { auctionPeriod := Value.str ("113/11/01~113/11/03".data)
    securityCode := Value.str ("A".data)
    securityName := Value.str ("B".data)
    industry := Value.str []
    underwriter := Value.str []
    underwritingLots := Value.str []
    auctionLots := Value.str []
    floorPrice := Value.str []
    underwritingPrice := Value.str []
    minWinningPrice := Value.str []
    maxWinningPrice := Value.str []
    weightedAvgPrice := Value.str []
    listingDateRaw := Value.str ("113/11/20".data)
    openDateRaw := Value.str ("113/11/04".data)
    dateOpenObj := some ⟨2024, 11, 4⟩
    dateListObj := some ⟨2024, 11, 20⟩
    dateAuctionEndObj := some ⟨2024, 11, 3⟩ }

/-- A record whose three derived dates are all absent. -/
def absentRec : Record :=
  { auctionPeriod := Value.str []
    securityCode := Value.str []
    securityName := Value.str []
    industry := Value.str []
    underwriter := Value.str []
    underwritingLots := Value.str []
    auctionLots := Value.str []
    floorPrice := Value.str []
    underwritingPrice := Value.str []
    minWinningPrice := Value.str []
    maxWinningPrice := Value.str []
    weightedAvgPrice := Value.str []
    listingDateRaw := Value.str []
    openDateRaw := Value.str []
    dateOpenObj := none
    dateListObj := none
    dateAuctionEndObj := none }

/-- Numeric value of a big-endian ASCII digit string (the value CPython's
`int` computes on it). -/
def digitVal (l : List Char) : Nat :=
  l.foldl (fun a c => a * 10 + (c.toNat - 48)) 0

/-- A `fields` array that names the first column `Code`. -/
def cexFields : List (List Char) :=
  "Code".data :: List.replicate 18 []

/-! ## Helper lemmas -/

theorem dateLt_iff (a b : PyDate) : dateLt a b = true ↔ dateLTP a b := by
  simp [dateLt, dateLTP, Bool.or_eq_true, Bool.and_eq_true, decide_eq_true_eq]

theorem dateLe_iff (a b : PyDate) : dateLe a b = true ↔ dateLEP a b := by
  simp [dateLe, dateLEP, Bool.or_eq_true, decide_eq_true_eq, dateLt_iff]

theorem ongoingMask_iff (today : PyDate) (r : Record) :
    ongoingMask today r = true ↔ ongoingSpec today r := by
  cases hA : r.dateAuctionEndObj with
  | none =>
    cases hO : r.dateOpenObj with
    | none => simp [ongoingMask, ongoingSpec, serGe, serGt, hA, hO]
    | some o => simp [ongoingMask, ongoingSpec, serGe, serGt, hA, hO, dateLt_iff]
  | some a =>
    cases hO : r.dateOpenObj with
    | none => simp [ongoingMask, ongoingSpec, serGe, serGt, hA, hO, dateLe_iff]
    | some o =>
      simp [ongoingMask, ongoingSpec, serGe, serGt, hA, hO, dateLe_iff, dateLt_iff]

theorem auctionedMask_iff (today : PyDate) (r : Record) :
    auctionedMask today r = true ↔ awaitingSpec today r := by
  cases hO : r.dateOpenObj with
  | none =>
    cases hL : r.dateListObj with
    | none => simp [auctionedMask, awaitingSpec, serLe, serGt, hO, hL]
    | some l => simp [auctionedMask, awaitingSpec, serLe, serGt, hO, hL]
  | some o =>
    cases hL : r.dateListObj with
    | none => simp [auctionedMask, awaitingSpec, serLe, serGt, hO, hL]
    | some l =>
      simp [auctionedMask, awaitingSpec, serLe, serGt, hO, hL, dateLe_iff, dateLt_iff]

theorem listedMask_iff (today : PyDate) (r : Record) :
    listedMask today r = true ↔ listedSpec today r := by
  cases hL : r.dateListObj with
  | none => simp [listedMask, listedSpec, serLe, hL]
  | some l => simp [listedMask, listedSpec, serLe, hL, dateLe_iff]

/-! ## C1 -/

/-- C1: for derived dates `A`, `O`, `L` and a given `today`, `classify_data`
puts a record in the ongoing bucket iff `A` is present with `A ≥ today` or
`O` is present with `O > today`; in the awaiting-listing bucket iff `O` is
present with `O ≤ today` and `L` is present with `L > today`; and in the
listed bucket iff `L` is present with `L ≤ today`. -/
theorem classify_buckets_iff (today : PyDate) (r : Record) (rs : List Record)
    (h : r ∈ rs) :
    classifyData today rs =
      some ((ongoingRows today rs).map stripDates,
            (auctionedRows today rs).map stripDates,
            (listedRows today rs).map stripDates) ∧
    (r ∈ ongoingRows today rs ↔ ongoingSpec today r) ∧
    (r ∈ auctionedRows today rs ↔ awaitingSpec today r) ∧
    (r ∈ listedRows today rs ↔ listedSpec today r) := by
  refine ⟨?_, ?_, ?_, ?_⟩
  · cases rs with
    | nil => cases h
    | cons a l => rfl
  · rw [ongoingRows, List.mem_filter, ← ongoingMask_iff]
    exact ⟨fun ⟨_, hm⟩ => hm, fun hm => ⟨h, hm⟩⟩
  · rw [auctionedRows, List.mem_filter, ← auctionedMask_iff]
    exact ⟨fun ⟨_, hm⟩ => hm, fun hm => ⟨h, hm⟩⟩
  · rw [listedRows, List.mem_filter, ← listedMask_iff]
    exact ⟨fun ⟨_, hm⟩ => hm, fun hm => ⟨h, hm⟩⟩

/-- Witness for C1 at `today = 2024-11-10` on the record derived from
`sampleRow`-like data (`A = 2024-11-03`, `O = 2024-11-04`,
`L = 2024-11-20`). -/
theorem classify_buckets_iff_witness :
    (sampleRec ∈ ongoingRows ⟨2024, 11, 10⟩ [sampleRec] ↔
      ongoingSpec ⟨2024, 11, 10⟩ sampleRec) ∧
    (sampleRec ∈ auctionedRows ⟨2024, 11, 10⟩ [sampleRec] ↔
      awaitingSpec ⟨2024, 11, 10⟩ sampleRec) ∧
    (sampleRec ∈ listedRows ⟨2024, 11, 10⟩ [sampleRec] ↔
      listedSpec ⟨2024, 11, 10⟩ sampleRec) :=
  (classify_buckets_iff ⟨2024, 11, 10⟩ sampleRec [sampleRec]
    (List.mem_singleton.mpr rfl)).2

/-! ## C2 -/

/-- C2: every date comparison in `classify_data` against an absent derived
date evaluates to `false` (the comparison functions are total, so nothing
is raised), and a record with all three derived dates absent is in none of
the three buckets. -/
theorem absent_dates_excluded :
    (∀ t : PyDate, serGe none t = false ∧ serGt none t = false ∧
      serLe none t = false) ∧
    (∀ (today : PyDate) (r : Record) (rs : List Record),
      r.dateAuctionEndObj = none → r.dateOpenObj = none →
      r.dateListObj = none →
      r ∉ ongoingRows today rs ∧ r ∉ auctionedRows today rs ∧
        r ∉ listedRows today rs) := by
  refine ⟨fun t => ⟨rfl, rfl, rfl⟩, ?_⟩
  intro today r rs hA hO hL
  refine ⟨?_, ?_, ?_⟩
  · simp [ongoingRows, List.mem_filter, ongoingMask, serGe, serGt, hA, hO]
  · simp [auctionedRows, List.mem_filter, auctionedMask, serLe, serGt, hO, hL]
  · simp [listedRows, List.mem_filter, listedMask, serLe, hL]

/-- Witness for C2 on a concrete all-absent record. -/
theorem absent_dates_excluded_witness :
    absentRec ∉ ongoingRows ⟨2024, 11, 10⟩ [absentRec] ∧
    absentRec ∉ auctionedRows ⟨2024, 11, 10⟩ [absentRec] ∧
    absentRec ∉ listedRows ⟨2024, 11, 10⟩ [absentRec] :=
  absent_dates_excluded.2 ⟨2024, 11, 10⟩ absentRec [absentRec] rfl rfl rfl

/-! ## C7 -/

/-- Counterexample to C7: the fetcher run on a response with HTTP status
404 whose body is well-formed JSON with one sufficient row returns one
record and no error — neither "an error describing the status code" nor
"no records". -/
theorem status_checked_cex :
    (getTwseAuctionData ⟨404, [], Except.ok ⟨some [sampleRow], none⟩⟩).2 =
      none ∧
    ((getTwseAuctionData
        ⟨404, [], Except.ok ⟨some [sampleRow], none⟩⟩).1.map List.length) =
      some 1 := ⟨rfl, rfl⟩

/-- C7 amended: the fetcher never inspects the HTTP status code — its
result is a function of the parsed body alone, so the same body yields the
same records and error under any two statuses. -/
theorem status_ignored (st₁ st₂ : Nat) (raw : List Char)
    (j : Except (List Char) Payload) :
    getTwseAuctionData ⟨st₁, raw, j⟩ = getTwseAuctionData ⟨st₂, raw, j⟩ := rfl

/-! ## C8 -/

/-- Counterexample to C8: on a body that parses to JSON without a `data`
key, the error is the fixed message 無法取得資料，可能來源格式變更, and no
character of the raw body `"abcd"` occurs in it — so no nonempty snippet
of the body is included. -/
theorem missing_data_no_snippet_cex :
    getTwseAuctionData ⟨200, "abcd".data, Except.ok ⟨none, none⟩⟩ =
      (none, some formatChangedMsg) ∧
    ("abcd".data.all (fun c => !(formatChangedMsg.contains c))) = true :=
  ⟨rfl, by decide⟩

/-- C8 amended: when the parsed JSON lacks a `data` key the fetcher stops
with the fixed error message 無法取得資料，可能來源格式變更, which does not
depend on the raw response body. -/
theorem missing_data_fixed_msg (st : Nat) (raw : List Char)
    (fs : Option (List (List Char))) :
    getTwseAuctionData ⟨st, raw, Except.ok ⟨none, fs⟩⟩ =
      (none, some formatChangedMsg) := rfl

/-! ## C9 -/

/-- Counterexample to C9: with `data` present but empty, the fetcher does
return zero records and no error, but the caller's classification step
fails on the empty frame (the `KeyError` of `classify_data`), so the state
surfaces as a failed render, not as the informational empty display. -/
theorem empty_data_informational_cex :
    getTwseAuctionData ⟨200, [], Except.ok ⟨some [], none⟩⟩ =
      (some [], none) ∧
    appOutcome ⟨2024, 11, 10⟩ ⟨200, [], Except.ok ⟨some [], none⟩⟩ =
      Outcome.pyError := ⟨rfl, rfl⟩

/-- C9 amended: when `data` is present but empty the fetcher returns zero
records with no error slot set, and the page flow then fails during
classification (missing derived-date columns on the empty frame) instead
of reaching the informational empty-bucket display. -/
theorem empty_data_not_informational (today : PyDate) (st : Nat)
    (raw : List Char) (fs : Option (List (List Char))) :
    getTwseAuctionData ⟨st, raw, Except.ok ⟨some [], fs⟩⟩ =
      (some [], none) ∧
    appOutcome today ⟨st, raw, Except.ok ⟨some [], fs⟩⟩ =
      Outcome.pyError := ⟨rfl, rfl⟩

theorem buildRow_isSome (item : List Value) (h : 18 ≤ item.length) :
    (buildRow item).isSome := by
  have h0 : item[0]? = some item[0] := List.getElem?_eq_getElem (by omega)
  have h1 : item[1]? = some item[1] := List.getElem?_eq_getElem (by omega)
  have h2 : item[2]? = some item[2] := List.getElem?_eq_getElem (by omega)
  have h3 : item[3]? = some item[3] := List.getElem?_eq_getElem (by omega)
  have h4 : item[4]? = some item[4] := List.getElem?_eq_getElem (by omega)
  have h5 : item[5]? = some item[5] := List.getElem?_eq_getElem (by omega)
  have h6 : item[6]? = some item[6] := List.getElem?_eq_getElem (by omega)
  have h9 : item[9]? = some item[9] := List.getElem?_eq_getElem (by omega)
  have h10 : item[10]? = some item[10] := List.getElem?_eq_getElem (by omega)
  have h12 : item[12]? = some item[12] := List.getElem?_eq_getElem (by omega)
  have h13 : item[13]? = some item[13] := List.getElem?_eq_getElem (by omega)
  have h14 : item[14]? = some item[14] := List.getElem?_eq_getElem (by omega)
  have h17 : item[17]? = some item[17] := List.getElem?_eq_getElem (by omega)
  by_cases h18 : 18 < item.length
  · have h18' : item[18]? = some item[18] := List.getElem?_eq_getElem h18
    simp [buildRow, h0, h1, h2, h3, h4, h5, h6, h9, h10, h12, h13, h14, h17,
      h18, h18']
  · simp [buildRow, h0, h1, h2, h3, h4, h5, h6, h9, h10, h12, h13, h14, h17,
      h18]

theorem processRows_eq (rows : List (List Value)) :
    processRows rows = some (pureProcess rows) := by
  induction rows with
  | nil => rfl
  | cons item rest ih =>
    by_cases h : item.length < 18
    · show processRows (item :: rest) = some (pureProcess (item :: rest))
      rw [processRows, if_pos h, ih]
      simp [pureProcess, List.filterMap_cons, h]
    · obtain ⟨r, hr⟩ := Option.isSome_iff_exists.mp
        (buildRow_isSome item (by omega))
      show processRows (item :: rest) = some (pureProcess (item :: rest))
      rw [processRows, if_neg h, hr, ih]
      simp [pureProcess, List.filterMap_cons, h, hr]

theorem processRows_all_short (rows : List (List Value))
    (h : ∀ item ∈ rows, item.length < 18) : processRows rows = some [] := by
  induction rows with
  | nil => rfl
  | cons item rest ih =>
    rw [processRows, if_pos (h item (List.mem_cons_self item rest))]
    exact ih (fun i hi => h i (List.mem_cons_of_mem _ hi))

/-! ## C5 -/

/-- C5: in the positional path, a row shorter than 18 values contributes
no record and no error (the loop never fails), and a row of sufficient
length contributes exactly one record in place. -/
theorem short_rows_skipped :
    (∀ rows : List (List Value), processRows rows = some (pureProcess rows)) ∧
    (∀ (pre post : List (List Value)) (item : List Value),
      item.length < 18 →
      pureProcess (pre ++ item :: post) = pureProcess (pre ++ post)) ∧
    (∀ (pre post : List (List Value)) (item : List Value),
      18 ≤ item.length →
      ∃ r, buildRow item = some r ∧
        pureProcess (pre ++ item :: post) =
          pureProcess pre ++ r :: pureProcess post) := by
  refine ⟨processRows_eq, ?_, ?_⟩
  · intro pre post item h
    simp [pureProcess, List.filterMap_append, List.filterMap_cons, h]
  · intro pre post item h
    obtain ⟨r, hr⟩ := Option.isSome_iff_exists.mp (buildRow_isSome item h)
    have h' : ¬item.length < 18 := by omega
    refine ⟨r, hr, ?_⟩
    simp [pureProcess, List.filterMap_append, List.filterMap_cons, h', hr]

/-- Witness for C5: a one-cell row is dropped in place, `sampleRow`
(19 cells) yields exactly one record. -/
theorem short_rows_skipped_witness :
    pureProcess ([] ++ [Value.null] :: [sampleRow]) =
      pureProcess ([] ++ [sampleRow]) ∧
    (∃ r, buildRow sampleRow = some r ∧
      pureProcess ([] ++ sampleRow :: []) =
        pureProcess [] ++ r :: pureProcess []) :=
  ⟨short_rows_skipped.2.1 [] [sampleRow] [Value.null] (by decide),
   short_rows_skipped.2.2 [] [] sampleRow (by decide)⟩

/-! ## C6 -/

/-- Counterexample to C6: on a payload whose `fields` array names column 0
`Code`, the fetcher still takes the security code from position 1 (value
`"A"`, not the column-0 value), and its output is identical to the run
without any `fields` array — no synonym mapping happens. -/
theorem fields_synonyms_cex :
    getTwseAuctionData
        ⟨200, [], Except.ok ⟨some [sampleRow], some cexFields⟩⟩ =
      getTwseAuctionData ⟨200, [], Except.ok ⟨some [sampleRow], none⟩⟩ ∧
    cexFields[0]? = some ("Code".data) ∧
    sampleRow[0]? = some (Value.str ("113/11/01~113/11/03".data)) ∧
    ((getTwseAuctionData
        ⟨200, [], Except.ok ⟨some [sampleRow], some cexFields⟩⟩).1.map
          (fun l => l.map Record.securityCode)) =
      some [Value.str ("A".data)] :=
  ⟨rfl, rfl, rfl, rfl⟩

/-- C6 amended: the fetcher never consults the `fields` array — its output
is independent of it — and the security-code field always comes from
position 1 of the row. -/
theorem fields_ignored (rows : List (List Value))
    (f₁ f₂ : Option (List (List Char))) (st₁ st₂ : Nat)
    (raw₁ raw₂ : List Char) :
    getTwseAuctionData ⟨st₁, raw₁, Except.ok ⟨some rows, f₁⟩⟩ =
      getTwseAuctionData ⟨st₂, raw₂, Except.ok ⟨some rows, f₂⟩⟩ ∧
    (∀ item : List Value, 18 ≤ item.length →
      (buildRow item).map Record.securityCode = item[1]?) := by
  refine ⟨rfl, ?_⟩
  intro item h
  have h0 : item[0]? = some item[0] := List.getElem?_eq_getElem (by omega)
  have h1 : item[1]? = some item[1] := List.getElem?_eq_getElem (by omega)
  have h2 : item[2]? = some item[2] := List.getElem?_eq_getElem (by omega)
  have h3 : item[3]? = some item[3] := List.getElem?_eq_getElem (by omega)
  have h4 : item[4]? = some item[4] := List.getElem?_eq_getElem (by omega)
  have h5 : item[5]? = some item[5] := List.getElem?_eq_getElem (by omega)
  have h6 : item[6]? = some item[6] := List.getElem?_eq_getElem (by omega)
  have h9 : item[9]? = some item[9] := List.getElem?_eq_getElem (by omega)
  have h10 : item[10]? = some item[10] := List.getElem?_eq_getElem (by omega)
  have h12 : item[12]? = some item[12] := List.getElem?_eq_getElem (by omega)
  have h13 : item[13]? = some item[13] := List.getElem?_eq_getElem (by omega)
  have h14 : item[14]? = some item[14] := List.getElem?_eq_getElem (by omega)
  have h17 : item[17]? = some item[17] := List.getElem?_eq_getElem (by omega)
  by_cases h18 : 18 < item.length
  · have h18' : item[18]? = some item[18] := List.getElem?_eq_getElem h18
    simp [buildRow, h0, h1, h2, h3, h4, h5, h6, h9, h10, h12, h13, h14, h17,
      h18, h18']
  · simp [buildRow, h0, h1, h2, h3, h4, h5, h6, h9, h10, h12, h13, h14, h17,
      h18]

/-- Witness for C6's amended theorem on `sampleRow`. -/
theorem fields_ignored_witness :
    (buildRow sampleRow).map Record.securityCode = sampleRow[1]? :=
  (fields_ignored [] none none 200 200 [] []).2 sampleRow (by decide)

/-! ## C10 -/

/-- C10: `classify_data` is not total over the fetcher's outputs — on the
empty record collection (as produced when `data` is empty, or when every
row is too short) it fails at the derived-date column access instead of
returning three empty buckets; every nonempty collection classifies. -/
theorem classify_not_total :
    (∀ today : PyDate, classifyData today [] = none) ∧
    (∀ (today : PyDate) (rs : List Record), rs ≠ [] →
      ∃ t, classifyData today rs = some t) ∧
    (∀ (st : Nat) (raw : List Char) (fs : Option (List (List Char))),
      getTwseAuctionData ⟨st, raw, Except.ok ⟨some [], fs⟩⟩ =
        (some [], none)) ∧
    (∀ (st : Nat) (raw : List Char) (fs : Option (List (List Char)))
        (rows : List (List Value)),
      (∀ item ∈ rows, item.length < 18) →
      getTwseAuctionData ⟨st, raw, Except.ok ⟨some rows, fs⟩⟩ =
        (some [], none)) := by
  refine ⟨fun _ => rfl, ?_, fun _ _ _ => rfl, ?_⟩
  · intro today rs h
    cases rs with
    | nil => exact absurd rfl h
    | cons a l => exact ⟨_, rfl⟩
  · intro st raw fs rows h
    simp [getTwseAuctionData, processRows_all_short rows h]

/-- Witness for C10: a nonempty collection classifies, and a payload of
one short row fetches to zero records with no error. -/
theorem classify_not_total_witness :
    (∃ t, classifyData ⟨2024, 11, 10⟩ [absentRec] = some t) ∧
    getTwseAuctionData ⟨200, [], Except.ok ⟨some [[Value.null]], none⟩⟩ =
      (some [], none) :=
  ⟨classify_not_total.2.1 ⟨2024, 11, 10⟩ [absentRec] (by simp),
   classify_not_total.2.2.2 200 [] none [[Value.null]] (by decide)⟩

/-! ## Split lemmas -/

theorem splitChar_ne_nil (sep : Char) (l : List Char) :
    splitChar sep l ≠ [] := by
  induction l with
  | nil => simp [splitChar]
  | cons c cs ih =>
    rw [splitChar]
    by_cases h : c = sep
    · simp [h]
    · rw [if_neg h]
      cases hs : splitChar sep cs with
      | nil => simp
      | cons seg rest => simp

theorem splitChar_no_sep (sep : Char) (l : List Char) (h : sep ∉ l) :
    splitChar sep l = [l] := by
  induction l with
  | nil => rfl
  | cons c cs ih =>
    have hc : c ≠ sep := fun hc => h (hc ▸ List.mem_cons_self c cs)
    have hcs : sep ∉ cs := fun hm => h (List.mem_cons_of_mem c hm)
    rw [splitChar, if_neg hc, ih hcs]

theorem splitChar_append (sep : Char) (a rest : List Char) (h : sep ∉ a) :
    splitChar sep (a ++ sep :: rest) = a :: splitChar sep rest := by
  induction a with
  | nil => simp [splitChar]
  | cons c a' ih =>
    have hc : c ≠ sep := fun hc => h (hc ▸ List.mem_cons_self c a')
    have ha' : sep ∉ a' := fun hm => h (List.mem_cons_of_mem c hm)
    rw [List.cons_append, splitChar, if_neg hc, ih ha']

theorem splitChar_sub (sep : Char) (l : List Char) :
    ∀ seg ∈ splitChar sep l, ∀ c ∈ seg, c ∈ l := by
  induction l with
  | nil =>
    intro seg hseg c hc
    simp [splitChar] at hseg
    subst hseg
    cases hc
  | cons x cs ih =>
    intro seg hseg c hc
    rw [splitChar] at hseg
    by_cases hx : x = sep
    · rw [if_pos hx] at hseg
      rcases List.mem_cons.mp hseg with heq | hseg
      · subst heq; cases hc
      · exact List.mem_cons_of_mem x (ih seg hseg c hc)
    · rw [if_neg hx] at hseg
      cases hs : splitChar sep cs with
      | nil => exact absurd hs (splitChar_ne_nil sep cs)
      | cons seg' rest =>
        rw [hs] at hseg
        rcases List.mem_cons.mp hseg with heq | hseg
        · subst heq
          rcases List.mem_cons.mp hc with heq' | hc'
          · exact heq' ▸ List.mem_cons_self x cs
          · exact List.mem_cons_of_mem x
              (ih seg' (hs ▸ List.mem_cons_self seg' rest) c hc')
        · exact List.mem_cons_of_mem x
            (ih seg (hs ▸ List.mem_cons_of_mem seg' hseg) c hc)

/-! ## C4 -/

/-- C4: the range parser returns `2024-11-03` on
`"113/11/01~113/11/03"`; with no tilde it returns the absent value; with a
tilde it hands the second segment to `roc_to_date`, so a malformed
trailing segment also yields the absent value. -/
theorem parse_range_end_spec :
    parseRangeEnd ("113/11/01~113/11/03".data) = some ⟨2024, 11, 3⟩ ∧
    (∀ s : List Char, '~' ∉ s → parseRangeEnd s = none) ∧
    (∀ a b : List Char, '~' ∉ a → '~' ∉ b →
      parseRangeEnd (a ++ '~' :: b) = rocToDate b) ∧
    (∀ a b : List Char, '~' ∉ a → '~' ∉ b → rocToDate b = none →
      parseRangeEnd (a ++ '~' :: b) = none) := by
  have key : ∀ a b : List Char, '~' ∉ a → '~' ∉ b →
      parseRangeEnd (a ++ '~' :: b) = rocToDate b := by
    intro a b ha hb
    have hmem : '~' ∈ a ++ '~' :: b :=
      List.mem_append_right a (List.mem_cons_self '~' b)
    rw [parseRangeEnd, if_pos hmem, splitChar_append '~' a b ha,
      splitChar_no_sep '~' b hb]
  refine ⟨by decide, ?_, key, ?_⟩
  · intro s h
    rw [parseRangeEnd, if_neg h]
  · intro a b ha hb hroc
    rw [key a b ha hb, hroc]

/-- Witness for C4: no tilde yields the absent value, and the second
segment is the one handed to `roc_to_date`. -/
theorem parse_range_end_spec_witness :
    parseRangeEnd ("113/11/01".data) = none ∧
    parseRangeEnd ("x".data ++ '~' :: "113/11/03".data) =
      rocToDate ("113/11/03".data) ∧
    parseRangeEnd ("x".data ++ '~' :: "bad".data) = none :=
  ⟨parse_range_end_spec.2.1 ("113/11/01".data) (by decide),
   parse_range_end_spec.2.2.1 ("x".data) ("113/11/03".data) (by decide)
     (by decide),
   parse_range_end_spec.2.2.2 ("x".data) ("bad".data) (by decide) (by decide)
     (by decide)⟩

/-! ## Digit-string lemmas -/

theorem digit_not_space (c : Char) (h : c.isDigit = true) :
    isPySpace c = false := by
  by_contra hb
  have hs : isPySpace c = true := by
    cases he : isPySpace c
    · exact absurd he hb
    · rfl
  simp only [isPySpace, Bool.or_eq_true, decide_eq_true_eq] at hs
  rcases hs with ((((h1 | h2) | h3) | h4) | h5) | h6
  · subst h1; exact absurd h (by decide)
  · subst h2; exact absurd h (by decide)
  · subst h3; exact absurd h (by decide)
  · subst h4; exact absurd h (by decide)
  · subst h5; exact absurd h (by decide)
  · subst h6; exact absurd h (by decide)

theorem digit_ne_slash (c : Char) (h : c.isDigit = true) : c ≠ '/' :=
  fun he => absurd (he ▸ h) (by decide)

theorem digit_ne_plus (c : Char) (h : c.isDigit = true) : c ≠ '+' :=
  fun he => absurd (he ▸ h) (by decide)

theorem digit_ne_minus (c : Char) (h : c.isDigit = true) : c ≠ '-' :=
  fun he => absurd (he ▸ h) (by decide)

theorem parseDigitsGo_digits (l : List Char) :
    ∀ acc : Nat, (∀ c ∈ l, c.isDigit = true) →
      parseDigitsGo acc l =
        some (l.foldl (fun a c => a * 10 + (c.toNat - 48)) acc) := by
  induction l with
  | nil => intro acc _; rfl
  | cons c rest ih =>
    intro acc h
    have hcd := h c (List.mem_cons_self c rest)
    rw [parseDigitsGo.eq_def]
    simp only [hcd, if_true, List.foldl_cons]
    exact ih _ (fun x hx => h x (List.mem_cons_of_mem c hx))

theorem parseDigits_digits (l : List Char) (hne : l ≠ [])
    (h : ∀ c ∈ l, c.isDigit = true) :
    parseDigits l = some (digitVal l) := by
  cases l with
  | nil => exact absurd rfl hne
  | cons c rest =>
    have hcd := h c (List.mem_cons_self c rest)
    simp only [parseDigits, hcd, if_true]
    rw [parseDigitsGo_digits rest _ (fun x hx => h x (List.mem_cons_of_mem c hx))]
    simp [digitVal]

theorem stripWs_of_digits (l : List Char) (hne : l ≠ [])
    (h : ∀ c ∈ l, c.isDigit = true) : stripWs l = l := by
  have hds : ∀ c ∈ l, isPySpace c = false :=
    fun c hc => digit_not_space c (h c hc)
  unfold stripWs
  cases l with
  | nil => exact absurd rfl hne
  | cons c cs =>
    rw [List.dropWhile_cons]
    rw [hds c (List.mem_cons_self c cs)]
    simp only [Bool.false_eq_true, if_false]
    cases hrev : (c :: cs).reverse with
    | nil => exact absurd hrev (by simp)
    | cons d ds =>
      have hd : d ∈ c :: cs := by
        rw [← List.mem_reverse, hrev]
        exact List.mem_cons_self d ds
      rw [List.dropWhile_cons, hds d hd]
      simp only [Bool.false_eq_true, if_false]
      rw [← hrev, List.reverse_reverse]

theorem pythonInt?_digits (l : List Char) (hne : l ≠ [])
    (h : ∀ c ∈ l, c.isDigit = true) :
    pythonInt? l = some (Int.ofNat (digitVal l)) := by
  have hs := stripWs_of_digits l hne h
  unfold pythonInt?
  rw [hs]
  cases l with
  | nil => exact absurd rfl hne
  | cons c cs =>
    have hcd := h c (List.mem_cons_self c cs)
    split
    next rest heq =>
      injection heq with h1 _
      exact absurd h1 (digit_ne_plus c hcd)
    next rest heq =>
      injection heq with h1 _
      exact absurd h1 (digit_ne_minus c hcd)
    next =>
      rw [parseDigits_digits (c :: cs) hne h]
      rfl

theorem rocToDate_wellformed (a b c : List Char)
    (ha' : a ≠ []) (hb' : b ≠ []) (hc' : c ≠ [])
    (ha : ∀ ch ∈ a, ch.isDigit = true) (hb : ∀ ch ∈ b, ch.isDigit = true)
    (hc : ∀ ch ∈ c, ch.isDigit = true)
    (hm1 : 1 ≤ digitVal b) (hm2 : digitVal b ≤ 12) (hd1 : 1 ≤ digitVal c)
    (hd2 : (digitVal c : Int) ≤
      daysInMonth ((digitVal a : Int) + 1911) (digitVal b))
    (hy : digitVal a + 1911 ≤ 9999) :
    rocToDate (a ++ '/' :: (b ++ '/' :: c)) =
      some ⟨digitVal a + 1911, digitVal b, digitVal c⟩ := by
  have hsa : '/' ∉ a := fun hm => absurd rfl (digit_ne_slash '/' (ha '/' hm))
  have hsb : '/' ∉ b := fun hm => absurd rfl (digit_ne_slash '/' (hb '/' hm))
  have hsc : '/' ∉ c := fun hm => absurd rfl (digit_ne_slash '/' (hc '/' hm))
  have hne : a ++ '/' :: (b ++ '/' :: c) ≠ [] := by simp
  have hsplit : splitChar '/' (a ++ '/' :: (b ++ '/' :: c)) = [a, b, c] := by
    rw [splitChar_append '/' a _ hsa, splitChar_append '/' b c hsb,
      splitChar_no_sep '/' c hsc]
  rw [rocToDate, if_neg hne, hsplit]
  show (match pythonInt? a with
    | none => none
    | some ya =>
      match pythonInt? b, pythonInt? c with
      | some mb, some dc => mkDate? (ya + 1911) mb dc
      | _, _ => none) = _
  rw [pythonInt?_digits a ha' ha, pythonInt?_digits b hb' hb,
    pythonInt?_digits c hc' hc]
  show mkDate? (Int.ofNat (digitVal a) + 1911) (Int.ofNat (digitVal b))
      (Int.ofNat (digitVal c)) = _
  simp only [Int.ofNat_eq_coe]
  rw [mkDate?, if_pos]
  · have e1 : ((digitVal a : Int) + 1911).toNat = digitVal a + 1911 := by
      omega
    have e2 : ((digitVal b : Int)).toNat = digitVal b := by omega
    have e3 : ((digitVal c : Int)).toNat = digitVal c := by omega
    rw [e1, e2, e3]
  · refine ⟨by omega, by omega, by omega, by omega, by omega, ?_⟩
    exact_mod_cast hd2

theorem rocToDate_count (s : List Char)
    (h : (splitChar '/' s).length ≠ 3) : rocToDate s = none := by
  by_cases hs : s = []
  · rw [rocToDate, if_pos hs]
  · rw [rocToDate, if_neg hs]
    rcases hsp : splitChar '/' s with _ | ⟨x, _ | ⟨y, _ | ⟨z, _ | ⟨w, t⟩⟩⟩⟩
    · rfl
    · rfl
    · rfl
    · exact absurd (by rw [hsp]; rfl) h
    · rfl

theorem rocToDate_space (s : List Char)
    (h : ∀ ch ∈ s, isPySpace ch = true) : rocToDate s = none := by
  by_cases hs : s = []
  · rw [rocToDate, if_pos hs]
  · by_cases hlen : (splitChar '/' s).length = 3
    · obtain ⟨a, b, c, habc⟩ := List.length_eq_three.mp hlen
      have hsub := splitChar_sub '/' s
      have haSp : ∀ ch ∈ a, isPySpace ch = true := fun ch hch =>
        h ch (hsub a (habc ▸ List.mem_cons_self a [b, c]) ch hch)
      have hstrip : stripWs a = [] := by
        unfold stripWs
        rw [List.dropWhile_eq_nil_iff.mpr (fun x hx => haSp x hx)]
        rfl
      have hpia : pythonInt? a = none := by
        unfold pythonInt?
        rw [hstrip]
        rfl
      rw [rocToDate, if_neg hs, habc]
      show (match pythonInt? a with
        | none => none
        | some ya =>
          match pythonInt? b, pythonInt? c with
          | some mb, some dc => mkDate? (ya + 1911) mb dc
          | _, _ => none) = none
      rw [hpia]
    · exact rocToDate_count s hlen

theorem rocToDate_parse_fail (s a b c : List Char)
    (hsp : splitChar '/' s = [a, b, c])
    (hfail : pythonInt? a = none ∨ pythonInt? b = none ∨
      pythonInt? c = none ∨
      ∀ ya mb dc : Int, pythonInt? a = some ya → pythonInt? b = some mb →
        pythonInt? c = some dc → mkDate? (ya + 1911) mb dc = none) :
    rocToDate s = none := by
  have hs : s ≠ [] := by
    intro he
    subst he
    have := congrArg List.length hsp
    simp [splitChar] at this
  rw [rocToDate, if_neg hs, hsp]
  show (match pythonInt? a with
    | none => none
    | some ya =>
      match pythonInt? b, pythonInt? c with
      | some mb, some dc => mkDate? (ya + 1911) mb dc
      | _, _ => none) = none
  cases hpa : pythonInt? a with
  | none => rfl
  | some ya =>
    cases hpb : pythonInt? b with
    | none =>
      cases hpc : pythonInt? c with
      | none => rfl
      | some dc => rfl
    | some mb =>
      cases hpc : pythonInt? c with
      | none => rfl
      | some dc =>
        show mkDate? (ya + 1911) mb dc = none
        rcases hfail with ha | hb | hc | hmk
        · exact absurd (ha ▸ hpa) (by simp)
        · exact absurd (hb ▸ hpb) (by simp)
        · exact absurd (hc ▸ hpc) (by simp)
        · exact hmk ya mb dc hpa hpb hpc

/-! ## C3 -/

/-- C3: `roc_to_date` maps every well-formed `YYY/M/D` Republic-of-China
date string (three nonempty digit segments passing calendar validation) to
the Gregorian date with year `YYY + 1911`, and returns the absent value —
never raising — for non-string input, whitespace-only (including empty)
strings, a segment count other than three, or a segment failing integer
parsing or calendar validation. -/
theorem roc_to_date_spec :
    (∀ a b c : List Char, a ≠ [] → b ≠ [] → c ≠ [] →
      (∀ ch ∈ a, ch.isDigit = true) → (∀ ch ∈ b, ch.isDigit = true) →
      (∀ ch ∈ c, ch.isDigit = true) →
      1 ≤ digitVal b → digitVal b ≤ 12 → 1 ≤ digitVal c →
      (digitVal c : Int) ≤
        daysInMonth ((digitVal a : Int) + 1911) (digitVal b) →
      digitVal a + 1911 ≤ 9999 →
      rocToDate (a ++ '/' :: (b ++ '/' :: c)) =
        some ⟨digitVal a + 1911, digitVal b, digitVal c⟩) ∧
    (∀ v : Value, (∀ s, v ≠ Value.str s) → rocToDateVal v = none) ∧
    (∀ s : List Char, (∀ ch ∈ s, isPySpace ch = true) → rocToDate s = none) ∧
    (∀ s : List Char, (splitChar '/' s).length ≠ 3 → rocToDate s = none) ∧
    (∀ s a b c : List Char, splitChar '/' s = [a, b, c] →
      (pythonInt? a = none ∨ pythonInt? b = none ∨ pythonInt? c = none ∨
        ∀ ya mb dc : Int, pythonInt? a = some ya → pythonInt? b = some mb →
          pythonInt? c = some dc → mkDate? (ya + 1911) mb dc = none) →
      rocToDate s = none) := by
  refine ⟨rocToDate_wellformed, ?_, rocToDate_space, rocToDate_count,
    rocToDate_parse_fail⟩
  intro v hv
  cases v with
  | str s => exact absurd rfl (hv s)
  | num n => rfl
  | boolean b => rfl
  | null => rfl

/-- Witness for C3 on the specification's own examples: `"113/11/12"`
parses to 2024-11-12; a non-string, a whitespace-only string, a two-segment
string, and month 13 all yield the absent value. -/
theorem roc_to_date_spec_witness :
    rocToDate ("113/11/12".data) = some ⟨2024, 11, 12⟩ ∧
    rocToDateVal (Value.num 5) = none ∧
    rocToDate (" ".data) = none ∧
    rocToDate ("113/11".data) = none ∧
    rocToDate ("113/13/40".data) = none := by
  refine ⟨?_,
    roc_to_date_spec.2.1 (Value.num 5) (fun s h => Value.noConfusion h),
    roc_to_date_spec.2.2.1 (" ".data) (by decide),
    roc_to_date_spec.2.2.2.1 ("113/11".data) (by decide), ?_⟩
  · have h := roc_to_date_spec.1 ("113".data) ("11".data) ("12".data)
      (by decide) (by decide) (by decide) (by decide) (by decide) (by decide)
      (by decide) (by decide) (by decide) (by decide) (by decide)
    have e1 : "113/11/12".data =
        "113".data ++ '/' :: ("11".data ++ '/' :: "12".data) := by decide
    have e2 : (⟨digitVal ("113".data) + 1911, digitVal ("11".data),
        digitVal ("12".data)⟩ : PyDate) = ⟨2024, 11, 12⟩ := by decide
    rw [e1, ← e2]
    exact h
  · refine roc_to_date_spec.2.2.2.2 ("113/13/40".data) ("113".data)
      ("13".data) ("40".data) (by decide) (Or.inr (Or.inr (Or.inr ?_)))
    intro ya mb dc hya hmb hdc
    have hy : ya = 113 := Option.some.inj
      (hya.symm.trans (by decide : pythonInt? ("113".data) = some 113))
    have hm : mb = 13 := Option.some.inj
      (hmb.symm.trans (by decide : pythonInt? ("13".data) = some 13))
    have hd : dc = 40 := Option.some.inj
      (hdc.symm.trans (by decide : pythonInt? ("40".data) = some 40))
    subst hy; subst hm; subst hd
    decide
